import Mathlib

/-!
# Verification of the pick-frame time-expression front end

A shallow embedding of the DSL lexer, expression parser, optimizer,
validator, cross-reference guard and evaluator of the `arg` library
(src/lib/arg/src/lexer.rs and src/lib/arg/src/lib.rs), together with
proofs and refutations of the specification's claims about them.

Conventions of the embedding:
* the remaining input of a `nom` parser is a list of characters plus the
  running byte offset (`Inp`), mirroring `nom_locate::LocatedSpan` for
  ASCII inputs;
* `std::time::Duration` is modelled as a natural number of nanoseconds;
* `nom::Err` keeps the recoverable/fatal distinction (`NErr.err` /
  `NErr.failure`) and an error carries the offset of its input together
  with its `nom::error::ErrorKind`;
* loops are written with an explicit fuel argument so that every
  definition is executable; the fuel bounds chosen in the wrappers are
  large enough (each iteration consumes input / shrinks the item list),
  and the lemmas about the optimizer carry the bound as a hypothesis.
-/

set_option autoImplicit false

namespace PickFrame

/-! ## Small list utilities (Vec indexing / in-place update / remove) -/

/-- `l[j]`, totalised: `none` out of bounds. -/
def idx? {α : Type} : List α → Nat → Option α
  | [], _ => none
  | a :: _, 0 => some a
  | _ :: as, j + 1 => idx? as j

/-- In-place update of position `j` (no-op out of bounds), as done by
`expr.items[first_index].set(..)` / `expr.ops[first_index].content.reverse()`. -/
def listSet {α : Type} : List α → Nat → (α → α) → List α
  | [], _, _ => []
  | a :: as, 0, f => f a :: as
  | a :: as, j + 1, f => a :: listSet as j f

/-- `Vec::remove(i)`: drop position `i`, shifting the tail left. -/
def eraseAt {α : Type} : List α → Nat → List α
  | [], _ => []
  | _ :: as, 0 => as
  | a :: as, j + 1 => a :: eraseAt as j

/-- Number of elements satisfying `P`. -/
def countP {α : Type} (P : α → Bool) (l : List α) : Nat := (l.filter P).length

/-! ## Data model (lexer.rs) -/

/-- `DSLKeywords` (lexer.rs:37). -/
inductive DSLKeywords
  | End
  | From
  | To
deriving DecidableEq, Repr

/-- `DSLOp` (lexer.rs:413). -/
inductive DSLOp
  | Add
  | Sub
deriving DecidableEq, Repr

/-- `DSLOp::reversed` (lexer.rs:425). -/
def DSLOp.reversed : DSLOp → DSLOp
  | .Add => .Sub
  | .Sub => .Add

/-- `std::time::Duration`, as a natural number of nanoseconds. -/
abbrev Duration := Nat

/-- `DSLType` (lexer.rs:78). -/
inductive DSLType
  | FrameIndex (v : Nat)
  | Timestamp (d : Duration)
  | Keyword (k : DSLKeywords)
deriving DecidableEq, Repr

/-- `DSLItem<T>` (lexer.rs:250): content plus source span. -/
structure DSLItem (T : Type) where
  content : T
  offset : Nat
  length : Nat
deriving DecidableEq, Repr

instance : Inhabited (DSLItem DSLType) := ⟨⟨.FrameIndex 0, 0, 0⟩⟩
instance : Inhabited (DSLItem DSLOp) := ⟨⟨.Add, 0, 0⟩⟩

/-- `Expr` (lexer.rs:485). -/
structure Expr where
  items : List (DSLItem DSLType)
  ops : List (DSLItem DSLOp)
deriving DecidableEq, Repr

/-- `CheckedExpr` (lexer.rs:615). -/
structure CheckedExpr where
  items : List DSLType
  ops : List DSLOp
deriving DecidableEq, Repr

/-! ## nom-level input and errors -/

/-- Remaining input plus its byte offset in the source
(`nom_locate::LocatedSpan`, ASCII). -/
structure Inp where
  chars : List Char
  off : Nat
deriving DecidableEq, Repr

/-- The `nom::error::ErrorKind`s reachable in this code. -/
inductive NomKind
  | Digit
  | Tag
  | Count
  | Fail
  | Escaped
deriving DecidableEq, Repr

/-- `nom::error::Error`: the offset of the input it was built from plus
its kind. -/
structure NomError where
  off : Nat
  code : NomKind
deriving DecidableEq, Repr

/-- `nom::Err`: recoverable (`Error`) or fatal (`Failure`).
(`Incomplete` never arises with complete parsers.) -/
inductive NErr (E : Type)
  | err (e : E)
  | failure (e : E)
deriving DecidableEq, Repr

/-- `error::ParseErrorKind` (lexer.rs:677). -/
inductive ParseErrorKind
  | Nom
  | Op
  | Keywords
deriving DecidableEq, Repr

/-- `error::ParseError` (lexer.rs:694): offset, consumed length, inner
nom error, kind. -/
structure ParseError where
  offset : Nat
  length : Nat
  source : NomError
  kind : ParseErrorKind
deriving DecidableEq, Repr

/-- `map_err` (lexer.rs:292): wrap a nom error, recording the given
offset and the number of bytes consumed before the failure. -/
def map_err (e : NErr NomError) (offset : Nat) (kind : ParseErrorKind) : NErr ParseError :=
  match e with
  | .err er => .err ⟨offset, er.off - offset, er, kind⟩
  | .failure er => .failure ⟨offset, er.off - offset, er, kind⟩

/-! ## nom primitive parsers -/

/-- Strip a literal from the front of the input, or fail. -/
def stripLit : List Char → List Char → Option (List Char)
  | [], rest => some rest
  | _, [] => none
  | l :: ls, c :: cs => if c = l then stripLit ls cs else none

/-- `nom::bytes::complete::tag`. -/
def tagP (lit : String) (i : Inp) : Except (NErr NomError) Inp :=
  match stripLit lit.toList i.chars with
  | some rest => .ok ⟨rest, i.off + lit.length⟩
  | none => .error (.err ⟨i.off, .Tag⟩)

/-- digit accumulator of `nom::character::complete::u64`:
`none` on u64 overflow, else the value and the digit count. -/
def u64loop : List Char → Nat → Nat → Option (Nat × Nat)
  | [], acc, n => some (acc, n)
  | c :: cs, acc, n =>
    if c.isDigit then
      let v := acc * 10 + (c.toNat - 48)
      if v < 2 ^ 64 then u64loop cs v (n + 1) else none
    else some (acc, n)

/-- `nom::character::complete::u64`: one or more digits (no sign), with
overflow check; errors with kind `Digit` anchored at the start. -/
def u64P (i : Inp) : Except (NErr NomError) (Inp × Nat) :=
  match i.chars with
  | [] => .error (.err ⟨i.off, .Digit⟩)
  | c :: _ =>
    if c.isDigit then
      match u64loop i.chars 0 0 with
      | some (v, n) => .ok (⟨i.chars.drop n, i.off + n⟩, v)
      | none => .error (.err ⟨i.off, .Digit⟩)
    else .error (.err ⟨i.off, .Digit⟩)

/-- Numeric value of a digit string. -/
def natOfDigits (ds : List Char) : Nat :=
  ds.foldl (fun a c => a * 10 + (c.toNat - 48)) 0

/-- `nom::character::complete::digit1`: one or more digits, returned
verbatim. -/
def digit1P (i : Inp) : Except (NErr NomError) (Inp × List Char) :=
  let ds := i.chars.takeWhile Char.isDigit
  if ds.isEmpty then .error (.err ⟨i.off, .Digit⟩)
  else .ok (⟨i.chars.drop ds.length, i.off + ds.length⟩, ds)

/-- A space or tab, as recognised by `nom::character::complete::space1`. -/
def isSp (c : Char) : Bool := c = ' ' || c = '\t'

/-- `many0(space1)`: skip every leading space/tab (total, never fails). -/
def skipSpacesI (i : Inp) : Inp :=
  let n := (i.chars.takeWhile isSp).length
  ⟨i.chars.drop n, i.off + n⟩

/-! ## Atom parsers (lexer.rs §atoms) -/

/-- `Token::token` for keywords (lexer.rs:48). -/
def kwTok : DSLKeywords → String
  | .End => "end"
  | .From => "from"
  | .To => "to"

/-- `_parse(keyword)` (lexer.rs:64): match the keyword's token. -/
def parseKwTag (k : DSLKeywords) (i : Inp) : Except (NErr NomError) (Inp × DSLKeywords) :=
  match tagP (kwTok k) i with
  | .ok i2 => .ok (i2, k)
  | .error e => .error e

/-- `parse_keyword` (lexer.rs:94): `alt` over `end`, `from`, `to`;
a fatal error aborts, the error of the last alternative is returned. -/
def parse_keyword (i : Inp) : Except (NErr NomError) (Inp × DSLType) :=
  match parseKwTag .End i with
  | .ok (i2, k) => .ok (i2, .Keyword k)
  | .error (.failure e) => .error (.failure e)
  | .error (.err _) =>
    match parseKwTag .From i with
    | .ok (i2, k) => .ok (i2, .Keyword k)
    | .error (.failure e) => .error (.failure e)
    | .error (.err _) =>
      match parseKwTag .To i with
      | .ok (i2, k) => .ok (i2, .Keyword k)
      | .error e => .error e

/-- `parse_frame_index` (lexer.rs:113): `u64` then the literal `f`. -/
def parse_frame_index (i : Inp) : Except (NErr NomError) (Inp × DSLType) :=
  match u64P i with
  | .error e => .error e
  | .ok (i1, v) =>
    match tagP "f" i1 with
    | .error e => .error e
    | .ok i2 => .ok (i2, .FrameIndex v)

/-- `parse_f64` (lexer.rs:127): integer with optional `.digits` fraction.
The numeric value is kept exactly as the pair (integer part, fraction
digits); the round trip through `f64` only matters for
`Duration::from_secs_f64`, modelled in `fromSecsDec`. -/
def parse_f64 (i : Inp) : Except (NErr NomError) (Inp × Nat × List Char) :=
  match u64P i with
  | .error e => .error e
  | .ok (i1, ip) =>
    match tagP "." i1 with
    | .error _ => .ok (i1, ip, [])
    | .ok i2 =>
      match digit1P i2 with
      | .error e => .error e
      | .ok (i3, ds) => .ok (i3, ip, ds)

/-- `Duration::from_secs_f64` applied to the value of the decimal literal
`ip.ds`: nanoseconds of the exact decimal, rounded half-up beyond
nanosecond precision (the f64 detour is not modelled bit-exactly; no
claim depends on this value). -/
def fromSecsDec (ip : Nat) (ds : List Char) : Duration :=
  let k := ds.length
  if k ≤ 9 then ip * 10 ^ 9 + natOfDigits ds * 10 ^ (9 - k)
  else ip * 10 ^ 9 + (2 * natOfDigits ds + 10 ^ (k - 9)) / (2 * 10 ^ (k - 9))

/-- `parse_timestamp1` (lexer.rs:152): `N[.D]s` seconds timestamp. -/
def parse_timestamp1 (i : Inp) : Except (NErr NomError) (Inp × DSLType) :=
  match parse_f64 i with
  | .error e => .error e
  | .ok (i1, ip, ds) =>
    match tagP "s" i1 with
    | .error e => .error e
    | .ok i2 => .ok (i2, .Timestamp (fromSecsDec ip ds))

/-- The loop of `parse_timestamp2` (lexer.rs:174-212). `rem` is `3 - i`
for the source's upward counter `i`: the `i > 2` guard at the top of the
loop is the `rem = 0` case, and each parsed colon field decrements `rem`.
Returns the remaining input, the parsed fields and the optional
millisecond value of a fractional suffix. -/
def pt2go : Nat → Inp → List Nat → Except (NErr NomError) (Inp × List Nat × Option Nat)
  | 0, i, _ => .error (.failure ⟨i.off, .Count⟩)
  | rem + 1, i, times =>
    match tagP ":" i with
    | .ok i2 =>
      match u64P i2 with
      | .error e => .error e
      | .ok (i3, v) => pt2go rem i3 (times ++ [v])
    | .error _ =>
      match tagP "." i with
      | .error _ => .ok (i, times, none)
      | .ok i2 =>
        match digit1P i2 with
        | .error e => .error e
        | .ok (i3, ds) =>
          let padded := ds ++ List.replicate (3 - ds.length) '0'
          let mval := natOfDigits padded
          .ok (i3, times, if mval < 2 ^ 64 then some mval else none)

/-- `parse_timestamp2` (lexer.rs:169): `H:M:S` / `M:S` colon timestamp
with optional fractional suffix. Fewer than two fields is a fatal `Fail`;
a fourth colon field is a fatal `Count`. -/
def parse_timestamp2 (i : Inp) : Except (NErr NomError) (Inp × DSLType) :=
  match u64P i with
  | .error e => .error e
  | .ok (i1, v) =>
    match pt2go 3 i1 [v] with
    | .error e => .error e
    | .ok (i2, times, ms) =>
      if times.length < 2 then .error (.failure ⟨i2.off, .Fail⟩)
      else
        let len := times.length
        let secs := (times.enum).foldl
          (fun acc p => acc + p.2 * 60 ^ (len - p.1 - 1)) 0
        .ok (i2, .Timestamp (secs * 10 ^ 9 + (ms.getD 0) * 10 ^ 6))

/-- `parse_timestamp3` (lexer.rs:237): `N ms` millisecond timestamp. -/
def parse_timestamp3 (i : Inp) : Except (NErr NomError) (Inp × DSLType) :=
  match u64P i with
  | .error e => .error e
  | .ok (i1, v) =>
    match tagP "ms" i1 with
    | .error e => .error e
    | .ok i2 => .ok (i2, .Timestamp (v * 10 ^ 6))

/-- `alt((parse_frame_index, parse_timestamp1, parse_timestamp3))` in
`parse_item`: try in order, abort on a fatal error, return the last
alternative's error when all fail. -/
def altAtoms (i : Inp) : Except (NErr NomError) (Inp × DSLType) :=
  match parse_frame_index i with
  | .ok r => .ok r
  | .error (.failure e) => .error (.failure e)
  | .error (.err _) =>
    match parse_timestamp1 i with
    | .ok r => .ok r
    | .error (.failure e) => .error (.failure e)
    | .error (.err _) => parse_timestamp3 i

/-- The tail of `parse_item` after the `parse_timestamp2` attempt
(lexer.rs:386-406): the `alt` of the remaining digit-led atoms, falling
back to keywords when the input did not start with a digit. `off` is the
atom's start offset, `inp` the post-space input. -/
def itemAfterTs2 (inp : Inp) (off : Nat) :
    Except (NErr ParseError) (Inp × Option (DSLItem DSLType)) :=
  match altAtoms inp with
  | .ok (i2, item) => .ok (i2, some ⟨item, off, i2.off - off⟩)
  | .error (.err er) =>
    if er.code = .Digit then
      match parse_keyword inp with
      | .ok (i2, item) => .ok (i2, some ⟨item, off, i2.off - off⟩)
      | .error e2 => .error (map_err e2 inp.off .Keywords)
    else .error (map_err (.err er) inp.off .Nom)
  | .error (.failure er) => .error (map_err (.failure er) inp.off .Nom)

/-- `parse_item` (lexer.rs:359): skip spaces, return `none` on empty
input, else try the colon timestamp (a fatal `Count` aborts), then the
other atom forms. -/
def parse_item (inp0 : Inp) :
    Except (NErr ParseError) (Inp × Option (DSLItem DSLType)) :=
  let inp := skipSpacesI inp0
  if inp.chars = [] then .ok (inp, none)
  else
    let off := inp.off
    match parse_timestamp2 inp with
    | .ok (i2, item) => .ok (i2, some ⟨item, off, i2.off - off⟩)
    | .error (.failure er) =>
      if er.code = .Count then .error (map_err (.failure er) inp.off .Nom)
      else itemAfterTs2 inp off
    | .error (.err _) => itemAfterTs2 inp off

/-- `alt((_parse(Add), _parse(Sub)))` in `parse_op`. -/
def altOps (i : Inp) : Except (NErr NomError) (Inp × DSLOp) :=
  match tagP "+" i with
  | .ok i2 => .ok (i2, .Add)
  | .error (.failure e) => .error (.failure e)
  | .error (.err _) =>
    match tagP "-" i with
    | .ok i2 => .ok (i2, .Sub)
    | .error e => .error e

/-- `parse_op` (lexer.rs:456): skip spaces, `none` on empty input, else
`+` or `-` (errors mapped with kind `Op`). -/
def parse_op (inp0 : Inp) :
    Except (NErr ParseError) (Inp × Option (DSLItem DSLOp)) :=
  let inp := skipSpacesI inp0
  if inp.chars = [] then .ok (inp, none)
  else
    let off := inp.off
    match altOps inp with
    | .ok (i2, op) => .ok (i2, some ⟨op, off, i2.off - off⟩)
    | .error e => .error (map_err e inp.off .Op)

/-- The `while !input.is_empty()` loop of `parse_expr` (lexer.rs:507-524).
An operator that is not followed by an atom is the fatal `Escaped` error
anchored at the operator's offset. Fuel bounds the loop; every iteration
consumes at least one byte, so `|input| + 1` steps suffice. -/
def parseExprGo : Nat → Inp → List (DSLItem DSLType) → List (DSLItem DSLOp) →
    Except (NErr ParseError) (Inp × Expr)
  | 0, inp, items, ops => .ok (inp, ⟨items, ops⟩)
  | fuel + 1, inp, items, ops =>
    if inp.chars = [] then .ok (inp, ⟨items, ops⟩)
    else
      match parse_op inp with
      | .error e => .error e
      | .ok (_, none) => .ok (inp, ⟨items, ops⟩)
      | .ok (i1, some op) =>
        match parse_item i1 with
        | .error e => .error e
        | .ok (_, none) => .error (map_err (.failure ⟨i1.off, .Escaped⟩) op.offset .Nom)
        | .ok (i2, some item) => parseExprGo fuel i2 (items ++ [item]) (ops ++ [op])

/-- `parse_expr` (lexer.rs:501): an empty first item yields the default
(empty) expression with the input untouched. -/
def parse_expr (inp : Inp) : Except (NErr ParseError) (Inp × Expr) :=
  match parse_item inp with
  | .error e => .error e
  | .ok (_, none) => .ok (inp, ⟨[], []⟩)
  | .ok (i1, some item) => parseExprGo (i1.chars.length + 1) i1 [item] []

/-- Input at offset 0 for a source string. -/
def strInp (s : String) : Inp := ⟨s.toList, 0⟩

/-! ## Optimizer (lexer.rs:550-609) -/

/-- The `get!(DSLType::FrameIndex, ..)` macro: extract the frame count
(other variants are `unreachable!()`; the cursor invariant keeps this at
a `FrameIndex`). -/
def frameValOf : DSLType → Nat
  | .FrameIndex v => v
  | _ => 0

/-- The `get!(DSLType::Timestamp, ..)` macro, as `frameValOf`. -/
def timeValOf : DSLType → Duration
  | .Timestamp d => d
  | _ => 0

/-- Placeholder for the (unreachable) out-of-bounds `items[first_index]`. -/
def dummyItem : DSLItem DSLType := default

/-- Placeholder for the (unreachable) out-of-bounds `ops[first_index]`. -/
def dummyOp : DSLItem DSLOp := default

/-- `l[j]` with a default. -/
def idxD {α : Type} (l : List α) (j : Nat) (d : α) : α := (idx? l j).getD d

/-- `DSLItem::set`: replace the content, keep the span. -/
def setAt (l : List (DSLItem DSLType)) (j : Nat) (v : DSLType) : List (DSLItem DSLType) :=
  listSet l j (fun a => ⟨v, a.offset, a.length⟩)

/-- `ops[j].content.reverse()` in place. -/
def revAt (l : List (DSLItem DSLOp)) (j : Nat) : List (DSLItem DSLOp) :=
  listSet l j (fun a => ⟨a.content.reversed, a.offset, a.length⟩)

/-- The `while index < expr.items.len()` loop of `optimize_expr`
(lexer.rs:565-608), with the two first-seen cursors. A second atom of the
same kind is folded into the first occurrence (same sign: add; else
subtract the smaller from the larger, flipping the first sign when the
newer value is at least as large) and removed from both lists without
advancing `index`. Fuel bounds the loop: `|items| - index` strictly
decreases each iteration, so `|items| + 1` steps suffice. -/
def optimizeGo : Nat → List (DSLItem DSLType) → List (DSLItem DSLOp) →
    Option Nat → Option Nat → Nat → Expr
  | 0, items, ops, _, _, _ => ⟨items, ops⟩
  | fuel + 1, items, ops, fi, ti, index =>
    match idx? items index with
    | none => ⟨items, ops⟩
    | some it =>
      match it.content with
      | .Keyword _ => optimizeGo fuel items ops fi ti (index + 1)
      | .FrameIndex thisV =>
        match fi with
        | none => optimizeGo fuel items ops (some index) ti (index + 1)
        | some fIdx =>
          let firstV := frameValOf (idxD items fIdx dummyItem).content
          if (idxD ops fIdx dummyOp).content = (idxD ops index dummyOp).content then
            optimizeGo fuel (eraseAt (setAt items fIdx (.FrameIndex (firstV + thisV))) index)
              (eraseAt ops index) fi ti index
          else if thisV < firstV then
            optimizeGo fuel (eraseAt (setAt items fIdx (.FrameIndex (firstV - thisV))) index)
              (eraseAt ops index) fi ti index
          else
            optimizeGo fuel (eraseAt (setAt items fIdx (.FrameIndex (thisV - firstV))) index)
              (eraseAt (revAt ops fIdx) index) fi ti index
      | .Timestamp thisV =>
        match ti with
        | none => optimizeGo fuel items ops fi (some index) (index + 1)
        | some tIdx =>
          let firstV := timeValOf (idxD items tIdx dummyItem).content
          if (idxD ops tIdx dummyOp).content = (idxD ops index dummyOp).content then
            optimizeGo fuel (eraseAt (setAt items tIdx (.Timestamp (firstV + thisV))) index)
              (eraseAt ops index) fi ti index
          else if thisV < firstV then
            optimizeGo fuel (eraseAt (setAt items tIdx (.Timestamp (firstV - thisV))) index)
              (eraseAt ops index) fi ti index
          else
            optimizeGo fuel (eraseAt (setAt items tIdx (.Timestamp (thisV - firstV))) index)
              (eraseAt (revAt ops tIdx) index) fi ti index

/-- The synthetic leading operator inserted by `optimize_expr`
(`DSLItem { content: Add, offset: 0, length: 0 }`). -/
def syntheticAdd : DSLItem DSLOp := ⟨.Add, 0, 0⟩

/-- `optimize_expr` (lexer.rs:550): prepend the synthetic `Add`, return
unchanged when fewer than two items, else run the folding loop. -/
def optimize_expr (e : Expr) : Expr :=
  let ops := syntheticAdd :: e.ops
  if e.items.length < 2 then ⟨e.items, ops⟩
  else optimizeGo (e.items.length + 1) e.items ops none none 0

/-! ## Validator (lexer.rs:631-666) -/

/-- Does the item at a zipped position hold this keyword? -/
def pairIsKw (k : DSLKeywords) (p : DSLItem DSLType × DSLItem DSLOp) : Bool :=
  match p.1.content with
  | .Keyword w => w = k
  | _ => false

/-- The final value of `counter[k]` built by `check_expr`'s loop:
`+1` per `Add`-signed occurrence, `-1` per `Sub`-signed occurrence,
over `items.zip(ops)`. -/
def signedCount (e : Expr) (k : DSLKeywords) : Int :=
  (e.items.zip e.ops).foldl
    (fun acc p =>
      match p.1.content with
      | .Keyword w =>
        if w = k then (if p.2.content = DSLOp.Add then acc + 1 else acc - 1) else acc
      | _ => acc) 0

/-- `counter.contains_key(k)`: the entry exists iff the keyword occurs in
the zipped walk at all (even when its net count is zero). -/
def touchesKw (e : Expr) (k : DSLKeywords) : Bool :=
  (e.items.zip e.ops).any (pairIsKw k)

/-- The final value of `has_add`: some zipped operator is `Add`. -/
def hasAddZ (e : Expr) : Bool :=
  (e.items.zip e.ops).any fun p => p.2.content = DSLOp.Add

/-- The three keys that can appear in `counter`. -/
def allKw : List DSLKeywords := [.End, .From, .To]

/-- `check_expr` (lexer.rs:631): reject all-subtraction non-empty
expressions, keywords with net count above one, and `From` together with
`To`; otherwise strip spans. -/
def check_expr (e : Expr) : Except String CheckedExpr :=
  if !hasAddZ e && !e.ops.isEmpty then .error "Overflow: all is sub"
  else if allKw.any (fun k => touchesKw e k && 1 < (signedCount e k).natAbs) then
    .error "Too many keywords"
  else if touchesKw e .From && touchesKw e .To then .error "circular references"
  else .ok ⟨e.items.map (·.content), e.ops.map (·.content)⟩

/-! ## Cross-reference guard (lib.rs:317-331) -/

/-- `ref_to`: the from-expression mentions the keyword `To`. -/
def ref_to (e : CheckedExpr) : Bool :=
  e.items.any fun it =>
    match it with
    | .Keyword .To => true
    | _ => false

/-- `ref_from`: the to-expression mentions the keyword `From`. -/
def ref_from (e : CheckedExpr) : Bool :=
  e.items.any fun it =>
    match it with
    | .Keyword .From => true
    | _ => false

/-- The cross-reference guard of `parse` (lib.rs:317-331): after both
expressions validated, reject the pair when the from-expression
references `to` while the to-expression references `from`; otherwise the
pair goes into the result handle. -/
def crossCheck (from_expr to_expr : CheckedExpr) :
    Except String (CheckedExpr × CheckedExpr) :=
  if ref_from to_expr && ref_to from_expr then
    .error "circular references, arg from ref `to` and arg to ref `from`"
  else .ok (from_expr, to_expr)

/-! ## Evaluator (lib.rs:372-444, DSL branch)

`get_from_timestamp` / `get_to_timestamp` walk `ops.zip(items)` summing
signed contributions. The numeric atom conversions go through
`VideoInfo`'s `f64` arithmetic, which is kept abstract here as the
functions `fts` (frame index to timestamp), `mts` (milliseconds to
timestamp) and the value `ets` (`end_to_timestamp`, i.e. the duration):
the branch structure, the mutual recursion on the peer expression and
the `unreachable!()` arms do not depend on them. `none` models a panic
(`unreachable!()`) or an unbounded mutual recursion (fuel 0 is the
exhausted call stack). -/

/-- Which bound is being evaluated. -/
inductive Role
  | fromBound
  | toBound
deriving DecidableEq, Repr

/-- The summation loop shared by both evaluators: resolve each atom,
then add or subtract it. A `none` atom (an `unreachable!()` keyword arm
or an exhausted recursion) aborts the walk. -/
def evalItems (resolveKw : DSLKeywords → Option Int) (fts mts : Nat → Int) :
    List (DSLOp × DSLType) → Int → Option Int
  | [], pts => some pts
  | (op, item) :: rest, pts =>
    let v? : Option Int :=
      match item with
      | .Keyword k => resolveKw k
      | .FrameIndex n => some (fts n)
      | .Timestamp d => some (mts (d / 10 ^ 6 % 2 ^ 64))
    match v? with
    | none => none
    | some v =>
      match op with
      | .Add => evalItems resolveKw fts mts rest (pts + v)
      | .Sub => evalItems resolveKw fts mts rest (pts - v)

/-- `get_from_timestamp` / `get_to_timestamp` on a result context holding
the two validated expressions. In the from role, `To` recurses into the
to-expression and `From` is `unreachable!()`; symmetrically in the to
role. `End` is the duration in both. -/
def evalCtx (fe te : CheckedExpr) (fts mts : Nat → Int) (ets : Int) :
    Nat → Role → Option Int
  | 0, _ => none
  | fuel + 1, role =>
    match role with
    | .fromBound =>
      evalItems
        (fun k =>
          match k with
          | .To => evalCtx fe te fts mts ets fuel .toBound
          | .End => some ets
          | .From => none)
        fts mts (fe.ops.zip fe.items) 0
    | .toBound =>
      evalItems
        (fun k =>
          match k with
          | .From => evalCtx fe te fts mts ets fuel .fromBound
          | .End => some ets
          | .To => none)
        fts mts (te.ops.zip te.items) 0

/-! ## Shape predicates and the canonical-form observations -/

/-- Is this content a `FrameIndex`? -/
def isFrameC : DSLType → Bool
  | .FrameIndex _ => true
  | _ => false

/-- Is this content a `Timestamp`? -/
def isTimeC : DSLType → Bool
  | .Timestamp _ => true
  | _ => false

/-- Is this content a `Keyword`? -/
def isKwC : DSLType → Bool
  | .Keyword _ => true
  | _ => false

/-- Is this item a `FrameIndex` atom? -/
def itemIsFrame (it : DSLItem DSLType) : Bool := isFrameC it.content

/-- Is this item a `Timestamp` atom? -/
def itemIsTime (it : DSLItem DSLType) : Bool := isTimeC it.content

/-- The keyword atoms of a parallel items/ops walk, in order, each with
its sign: the observation under which "keywords are unchanged, in their
original relative order, with their original signs" is stated. -/
def kwSigns : List (DSLItem DSLType) → List (DSLItem DSLOp) →
    List (DSLItem DSLType × DSLOp)
  | [], _ => []
  | _ :: _, [] => []
  | it :: its, op :: ops =>
    if isKwC it.content then (it, op.content) :: kwSigns its ops
    else kwSigns its ops

/-- Loop invariant of `optimizeGo` for one first-seen cursor: every
position before `index` whose item satisfies `P` is the cursor's
position, and the cursor (when set) points before `index` at an item
satisfying `P`. -/
def CursorOk (P : DSLItem DSLType → Bool) (items : List (DSLItem DSLType))
    (c : Option Nat) (index : Nat) : Prop :=
  (∀ p a, idx? items p = some a → p < index → P a = true → c = some p) ∧
  (∀ j, c = some j → j < index ∧ ∃ a, idx? items j = some a ∧ P a = true)

/-- The conclusion bundle of the optimizer invariant relative to a base
items/ops pair: one operator per atom, at most one frame atom, at most
one timestamp atom, keywords with signs as in the base. -/
def OptConc (e : Expr) (items : List (DSLItem DSLType))
    (ops : List (DSLItem DSLOp)) : Prop :=
  e.ops.length = e.items.length ∧
  countP itemIsFrame e.items ≤ 1 ∧
  countP itemIsTime e.items ≤ 1 ∧
  kwSigns e.items e.ops = kwSigns items ops

/-- 1 when a cursor is set, 0 otherwise. -/
def oneIfSome : Option Nat → Nat
  | none => 0
  | some _ => 1

/-! ## Concrete expressions used by witnesses and counterexamples -/

/-- The parse of `"1f"`: a single frame atom, no operator. -/
def wE2 : Expr := ⟨[⟨.FrameIndex 1, 0, 2⟩], []⟩

/-- Another single-atom expression (for the amended-claim witness). -/
def wE2b : Expr := ⟨[⟨.Timestamp 2000000000, 0, 2⟩], []⟩

/-- The parse of `"1f + 2f - end"`: two frame atoms and a keyword. -/
def wE3 : Expr :=
  ⟨[⟨.FrameIndex 1, 0, 2⟩, ⟨.FrameIndex 2, 5, 2⟩, ⟨.Keyword .End, 10, 3⟩],
    [⟨.Add, 3, 1⟩, ⟨.Sub, 8, 1⟩]⟩

/-- The empty expression, `parse_expr("")`'s output. -/
def wEmpty : Expr := ⟨[], []⟩

/-- A canonical-form all-subtraction expression (`-1s` after optimize). -/
def wE8 : Expr := ⟨[⟨.Timestamp 1000000000, 0, 2⟩], [⟨.Sub, 0, 1⟩]⟩

/-- A validated from-expression mentioning `to`. -/
def wFe7 : CheckedExpr := ⟨[.Keyword .To], [.Add]⟩

/-- A validated to-expression mentioning `from`. -/
def wTe7 : CheckedExpr := ⟨[.Keyword .From, .Timestamp 1000000000], [.Add, .Sub]⟩

/-- The parse of `"from"`. -/
def fromOnlyExpr : Expr := ⟨[⟨.Keyword .From, 0, 4⟩], []⟩

/-- The validated form of `"from"` (net keyword count 1, synthetic `Add`). -/
def fromOnlyChecked : CheckedExpr := ⟨[.Keyword .From], [.Add]⟩

/-- The validated form of `"end"`, the `--to` default. -/
def endOnlyChecked : CheckedExpr := ⟨[.Keyword .End], [.Add]⟩

/-! # Lemmas -/

/-! ## Indexing, update and removal -/

theorem idx?_lt_length {α : Type} : ∀ (l : List α) (p : Nat) (a : α),
    idx? l p = some a → p < l.length
  | [], _, _, h => by simp [idx?] at h
  | _ :: _, 0, _, _ => Nat.succ_pos _
  | _ :: bs, p + 1, a, h => Nat.succ_lt_succ (idx?_lt_length bs p a h)

theorem le_of_idx?_none {α : Type} : ∀ (l : List α) (p : Nat),
    idx? l p = none → l.length ≤ p
  | [], p, _ => Nat.zero_le p
  | _ :: _, 0, h => by simp [idx?] at h
  | _ :: bs, p + 1, h => Nat.succ_le_succ (le_of_idx?_none bs p h)

theorem length_listSet {α : Type} : ∀ (l : List α) (j : Nat) (f : α → α),
    (listSet l j f).length = l.length
  | [], _, _ => rfl
  | _ :: _, 0, _ => rfl
  | _ :: as, j + 1, f => by simp [listSet, length_listSet as j f]

theorem idx?_listSet_self {α : Type} : ∀ (l : List α) (j : Nat) (f : α → α) (a : α),
    idx? l j = some a → idx? (listSet l j f) j = some (f a)
  | [], _, _, _, h => by simp [idx?] at h
  | b :: _, 0, f, a, h => by
      simp [idx?] at h
      simp [listSet, idx?, h]
  | _ :: bs, j + 1, f, a, h => idx?_listSet_self bs j f a h

theorem idx?_listSet_ne {α : Type} : ∀ (l : List α) (j p : Nat) (f : α → α),
    p ≠ j → idx? (listSet l j f) p = idx? l p
  | [], _, _, _, _ => rfl
  | _ :: _, 0, 0, _, h => absurd rfl h
  | _ :: _, 0, _ + 1, _, _ => rfl
  | _ :: _, _ + 1, 0, _, _ => rfl
  | _ :: as, j + 1, p + 1, f, h =>
      idx?_listSet_ne as j p f (fun hh => h (by rw [hh]))

theorem length_eraseAt {α : Type} : ∀ (l : List α) (i : Nat),
    i < l.length → (eraseAt l i).length = l.length - 1
  | [], _, h => absurd h (by simp)
  | _ :: _, 0, _ => rfl
  | _ :: as, i + 1, h => by
      have hi : i < as.length := Nat.lt_of_succ_lt_succ h
      have := length_eraseAt as i hi
      simp only [eraseAt, List.length_cons, this]
      omega

theorem idx?_eraseAt_lt {α : Type} : ∀ (l : List α) (i p : Nat),
    p < i → idx? (eraseAt l i) p = idx? l p
  | [], _, _, _ => rfl
  | _ :: _, 0, p, h => absurd h (Nat.not_lt_zero p)
  | _ :: _, _ + 1, 0, _ => rfl
  | _ :: as, i + 1, p + 1, h => idx?_eraseAt_lt as i p (Nat.lt_of_succ_lt_succ h)

theorem idx?_of_mem {α : Type} : ∀ (l : List α) (a : α),
    a ∈ l → ∃ p, idx? l p = some a
  | [], a, h => absurd h (List.not_mem_nil a)
  | b :: bs, a, h => by
      rcases List.mem_cons.mp h with h | h
      · exact ⟨0, by simp [idx?, h]⟩
      · obtain ⟨p, hp⟩ := idx?_of_mem bs a h
        exact ⟨p + 1, hp⟩

theorem drop_idx? {α : Type} : ∀ (l : List α) (n : Nat) (a : α),
    idx? l n = some a → l.drop n = a :: l.drop (n + 1)
  | [], _, _, h => by simp [idx?] at h
  | b :: bs, 0, a, h => by
      simp [idx?] at h
      simp [h]
  | b :: bs, n + 1, a, h => by
      have := drop_idx? bs n a h
      simpa using this

/-! ## Counting -/

theorem countP_cons_pos {α : Type} (P : α → Bool) (a : α) (l : List α)
    (h : P a = true) : countP P (a :: l) = countP P l + 1 := by
  simp [countP, List.filter_cons, h]

theorem countP_cons_neg {α : Type} (P : α → Bool) (a : α) (l : List α)
    (h : P a = false) : countP P (a :: l) = countP P l := by
  simp [countP, List.filter_cons, h]

theorem countP_le_length {α : Type} (P : α → Bool) (l : List α) :
    countP P l ≤ l.length :=
  l.length_filter_le P

theorem countP_le_one_of_unique {α : Type} (P : α → Bool) :
    ∀ (l : List α),
      (∀ p q a b, idx? l p = some a → idx? l q = some b →
        P a = true → P b = true → p = q) →
      countP P l ≤ 1
  | [], _ => by simp [countP]
  | x :: xs, h => by
      by_cases hx : P x = true
      · have hxs : ∀ y ∈ xs, ¬ P y = true := by
          intro y hy hPy
          obtain ⟨p, hp⟩ := idx?_of_mem xs y hy
          have h0 : idx? (x :: xs) 0 = some x := rfl
          have hp1 : idx? (x :: xs) (p + 1) = some y := hp
          exact Nat.succ_ne_zero p (h (p + 1) 0 y x hp1 h0 hPy hx)
        have hnil : xs.filter P = [] := List.filter_eq_nil_iff.mpr hxs
        simp [countP, List.filter_cons, hx, hnil]
      · have h' : ∀ p q a b, idx? xs p = some a → idx? xs q = some b →
            P a = true → P b = true → p = q := by
          intro p q a b hp hq ha hb
          have := h (p + 1) (q + 1) a b hp hq ha hb
          omega
        have := countP_le_one_of_unique P xs h'
        simpa [countP, List.filter_cons, hx] using this

/-! ## Shape facts -/

theorem frame_not_kw (x : DSLItem DSLType) :
    itemIsFrame x = true → isKwC x.content = false := by
  rcases x with ⟨c, o, l⟩
  cases c <;> simp [itemIsFrame, isFrameC, isKwC]

theorem time_not_kw (x : DSLItem DSLType) :
    itemIsTime x = true → isKwC x.content = false := by
  rcases x with ⟨c, o, l⟩
  cases c <;> simp [itemIsTime, isTimeC, isKwC]

theorem frame_not_time (x : DSLItem DSLType) :
    itemIsFrame x = true → itemIsTime x = true → False := by
  rcases x with ⟨c, o, l⟩
  cases c <;> simp [itemIsFrame, isFrameC, itemIsTime, isTimeC]

theorem time_not_frame (x : DSLItem DSLType) :
    itemIsTime x = true → itemIsFrame x = true → False := by
  rcases x with ⟨c, o, l⟩
  cases c <;> simp [itemIsFrame, isFrameC, itemIsTime, isTimeC]

/-! ## kwSigns is untouched by non-keyword updates and removals -/

theorem kwSigns_setAt : ∀ (items : List (DSLItem DSLType)) (ops : List (DSLItem DSLOp))
    (j : Nat) (v : DSLType),
    (∀ a, idx? items j = some a → isKwC a.content = false) → isKwC v = false →
    kwSigns (setAt items j v) ops = kwSigns items ops
  | [], _, _, _, _, _ => rfl
  | _ :: _, [], j, _, _, _ => by cases j <;> rfl
  | it :: its, op :: ops, 0, v, h, hv => by
      have hit : isKwC it.content = false := h it rfl
      simp [setAt, listSet, kwSigns, hit, hv]
  | it :: its, op :: ops, j + 1, v, h, hv => by
      have ih := kwSigns_setAt its ops j v (fun a ha => h a ha) hv
      simp only [setAt, listSet] at ih ⊢
      simp [kwSigns, ih]

theorem kwSigns_opSet : ∀ (items : List (DSLItem DSLType)) (ops : List (DSLItem DSLOp))
    (j : Nat) (f : DSLItem DSLOp → DSLItem DSLOp),
    (∀ a, idx? items j = some a → isKwC a.content = false) →
    kwSigns items (listSet ops j f) = kwSigns items ops
  | [], _, _, _, _ => rfl
  | _ :: _, [], _, _, _ => rfl
  | it :: its, op :: ops, 0, f, h => by
      have hit : isKwC it.content = false := h it rfl
      simp [listSet, kwSigns, hit]
  | it :: its, op :: ops, j + 1, f, h => by
      have ih := kwSigns_opSet its ops j f (fun a ha => h a ha)
      simp [listSet, kwSigns, ih]

theorem kwSigns_eraseAt : ∀ (items : List (DSLItem DSLType)) (ops : List (DSLItem DSLOp))
    (i : Nat) (a : DSLItem DSLType),
    ops.length = items.length → idx? items i = some a → isKwC a.content = false →
    kwSigns (eraseAt items i) (eraseAt ops i) = kwSigns items ops
  | [], _, _, _, _, h, _ => by simp [idx?] at h
  | _ :: _, [], _, _, hlen, _, _ => by simp at hlen
  | it :: its, op :: ops, 0, a, _, h, hk => by
      have ha : a = it := (Option.some.inj h).symm
      subst ha
      simp [eraseAt, kwSigns, hk]
  | it :: its, op :: ops, i + 1, a, hlen, h, hk => by
      have ih := kwSigns_eraseAt its ops i a (by simpa using hlen) h hk
      simp [eraseAt, kwSigns, ih]

/-! ## Cursor invariant maintenance -/

theorem cursorOk_advance_not (P : DSLItem DSLType → Bool)
    (items : List (DSLItem DSLType)) (c : Option Nat) (index : Nat)
    (it : DSLItem DSLType) (hit : idx? items index = some it) (hitP : P it = false)
    (h : CursorOk P items c index) : CursorOk P items c (index + 1) := by
  obtain ⟨h1, h2⟩ := h
  refine ⟨?_, ?_⟩
  · intro p a hp hlt hPa
    rcases Nat.lt_succ_iff_lt_or_eq.mp hlt with hlt | heq
    · exact h1 p a hp hlt hPa
    · subst heq
      rw [hit] at hp
      rw [← Option.some.inj hp, hitP] at hPa
      simp at hPa
  · intro j hj
    obtain ⟨hlt, rest⟩ := h2 j hj
    exact ⟨Nat.lt_succ_of_lt hlt, rest⟩

theorem cursorOk_advance_new (P : DSLItem DSLType → Bool)
    (items : List (DSLItem DSLType)) (index : Nat)
    (it : DSLItem DSLType) (hit : idx? items index = some it) (hitP : P it = true)
    (h : CursorOk P items none index) : CursorOk P items (some index) (index + 1) := by
  obtain ⟨h1, _⟩ := h
  refine ⟨?_, ?_⟩
  · intro p a hp hlt hPa
    rcases Nat.lt_succ_iff_lt_or_eq.mp hlt with hlt | heq
    · exact absurd (h1 p a hp hlt hPa) (by simp)
    · rw [heq]
  · intro j hj
    have hji : index = j := Option.some.inj hj
    subst hji
    exact ⟨Nat.lt_succ_self index, it, hit, hitP⟩

/-- One fold step of the optimizer: replacing the first-seen atom of the
current kind by a new non-keyword value of the same kind and removing
the current position keeps both cursor invariants, shrinks the lists by
one, and leaves the keyword/sign observation unchanged. -/
theorem foldStepInv (P Q : DSLItem DSLType → Bool)
    (hPknw : ∀ x, P x = true → isKwC x.content = false)
    (hPQ : ∀ x, P x = true → Q x = true → False)
    (items : List (DSLItem DSLType)) (ops ops' : List (DSLItem DSLOp))
    (c' : Option Nat) (index cIdx : Nat) (it : DSLItem DSLType) (v : DSLType)
    (hv : ∀ o l, P ⟨v, o, l⟩ = true)
    (hvQ : ∀ o l, Q ⟨v, o, l⟩ = false)
    (hvK : isKwC v = false)
    (hlen : ops.length = items.length)
    (hit : idx? items index = some it)
    (hitP : P it = true)
    (hops' : ops' = ops ∨ ops' = revAt ops cIdx)
    (hP : CursorOk P items (some cIdx) index)
    (hQ : CursorOk Q items c' index) :
    (eraseAt ops' index).length = (eraseAt (setAt items cIdx v) index).length ∧
    (eraseAt (setAt items cIdx v) index).length = items.length - 1 ∧
    CursorOk P (eraseAt (setAt items cIdx v) index) (some cIdx) index ∧
    CursorOk Q (eraseAt (setAt items cIdx v) index) c' index ∧
    kwSigns (eraseAt (setAt items cIdx v) index) (eraseAt ops' index) =
      kwSigns items ops := by
  obtain ⟨hP1, hP2⟩ := hP
  obtain ⟨hcLt, a0, ha0, ha0P⟩ := hP2 cIdx rfl
  have hIdxLt : index < items.length := idx?_lt_length items index it hit
  have hSetLen : (setAt items cIdx v).length = items.length := length_listSet items cIdx _
  have hOps'Len : ops'.length = ops.length := by
    rcases hops' with rfl | rfl
    · rfl
    · exact length_listSet ops cIdx _
  have hEr1 : (eraseAt (setAt items cIdx v) index).length = items.length - 1 := by
    rw [length_eraseAt _ index (by rw [hSetLen]; exact hIdxLt), hSetLen]
  have hEr2 : (eraseAt ops' index).length = items.length - 1 := by
    rw [length_eraseAt _ index (by rw [hOps'Len, hlen]; exact hIdxLt), hOps'Len, hlen]
  have hNe : index ≠ cIdx := Nat.ne_of_gt hcLt
  have hNew_at : ∀ p, p < index →
      idx? (eraseAt (setAt items cIdx v) index) p = idx? (setAt items cIdx v) p :=
    fun p hp => idx?_eraseAt_lt _ index p hp
  have hSet_cIdx : idx? (setAt items cIdx v) cIdx = some ⟨v, a0.offset, a0.length⟩ :=
    idx?_listSet_self items cIdx _ a0 ha0
  have hNew_cIdx : idx? (eraseAt (setAt items cIdx v) index) cIdx =
      some ⟨v, a0.offset, a0.length⟩ := by
    rw [hNew_at cIdx hcLt, hSet_cIdx]
  have hSet_ne : ∀ p, p ≠ cIdx → idx? (setAt items cIdx v) p = idx? items p :=
    fun p hp => idx?_listSet_ne items cIdx p _ hp
  have hNew_ne : ∀ p, p < index → p ≠ cIdx →
      idx? (eraseAt (setAt items cIdx v) index) p = idx? items p := by
    intro p hp hne
    rw [hNew_at p hp, hSet_ne p hne]
  refine ⟨by rw [hEr1, hEr2], hEr1, ⟨?_, ?_⟩, ⟨?_, ?_⟩, ?_⟩
  · -- P-cursor, first component
    intro p a hp hlt hPa
    by_cases hpc : p = cIdx
    · rw [hpc]
    · rw [hNew_ne p hlt hpc] at hp
      exact hP1 p a hp hlt hPa
  · -- P-cursor, second component
    intro j hj
    have hji : cIdx = j := Option.some.inj hj
    subst hji
    exact ⟨hcLt, ⟨v, a0.offset, a0.length⟩, hNew_cIdx, hv _ _⟩
  · -- Q-cursor, first component
    intro p a hp hlt hQa
    by_cases hpc : p = cIdx
    · subst hpc
      rw [hNew_cIdx] at hp
      rw [← Option.some.inj hp, hvQ] at hQa
      simp at hQa
    · rw [hNew_ne p hlt hpc] at hp
      exact hQ.1 p a hp hlt hQa
  · -- Q-cursor, second component
    intro j hj
    obtain ⟨hjlt, b, hb, hbQ⟩ := hQ.2 j hj
    have hjc : j ≠ cIdx := by
      intro heq
      subst heq
      rw [ha0] at hb
      rw [← Option.some.inj hb] at hbQ
      exact hPQ a0 ha0P hbQ
    refine ⟨hjlt, b, ?_, hbQ⟩
    rw [hNew_ne j hjlt hjc]
    exact hb
  · -- keyword/sign observation
    have hSetIdx : idx? (setAt items cIdx v) index = some it := by
      rw [hSet_ne index hNe]
      exact hit
    have k1 : kwSigns (eraseAt (setAt items cIdx v) index) (eraseAt ops' index) =
        kwSigns (setAt items cIdx v) ops' :=
      kwSigns_eraseAt (setAt items cIdx v) ops' index it
        (by rw [hOps'Len, hlen, hSetLen]) hSetIdx (hPknw it hitP)
    have k2 : kwSigns (setAt items cIdx v) ops' = kwSigns (setAt items cIdx v) ops := by
      rcases hops' with rfl | rfl
      · rfl
      · refine kwSigns_opSet (setAt items cIdx v) ops cIdx _ ?_
        intro a ha
        rw [hSet_cIdx] at ha
        rw [← Option.some.inj ha]
        exact hvK
    have k3 : kwSigns (setAt items cIdx v) ops = kwSigns items ops := by
      refine kwSigns_setAt items ops cIdx v ?_ hvK
      intro a ha
      rw [ha0] at ha
      rw [← Option.some.inj ha]
      exact hPknw a0 ha0P
    exact k1.trans (k2.trans k3)

/-! ## The optimizer loop invariant -/

theorem OptConc_trans {e : Expr} {items1 : List (DSLItem DSLType)}
    {ops1 : List (DSLItem DSLOp)} {items2 : List (DSLItem DSLType)}
    {ops2 : List (DSLItem DSLOp)}
    (h : OptConc e items2 ops2) (hk : kwSigns items2 ops2 = kwSigns items1 ops1) :
    OptConc e items1 ops1 :=
  ⟨h.1, h.2.1, h.2.2.1, h.2.2.2.trans hk⟩

theorem cursorOk_zero (P : DSLItem DSLType → Bool) (items : List (DSLItem DSLType)) :
    CursorOk P items none 0 :=
  ⟨fun p _ _ hp _ => absurd hp (Nat.not_lt_zero p), fun _ hj => Option.noConfusion hj⟩

theorem optimizeGo_spec : ∀ (fuel : Nat) (items : List (DSLItem DSLType))
    (ops : List (DSLItem DSLOp)) (fi ti : Option Nat) (index : Nat),
    items.length - index < fuel →
    ops.length = items.length →
    CursorOk itemIsFrame items fi index →
    CursorOk itemIsTime items ti index →
    OptConc (optimizeGo fuel items ops fi ti index) items ops := by
  intro fuel
  induction fuel with
  | zero => intro items ops fi ti index hm; omega
  | succ fuel ih =>
    intro items ops fi ti index hm hlen hF hT
    cases hidx : idx? items index with
    | none =>
      have hle : items.length ≤ index := le_of_idx?_none items index hidx
      simp only [optimizeGo, hidx]
      refine ⟨hlen, ?_, ?_, rfl⟩
      · refine countP_le_one_of_unique _ items ?_
        intro p q a b hp hq ha hb
        have h1 := hF.1 p a hp (lt_of_lt_of_le (idx?_lt_length items p a hp) hle) ha
        have h2 := hF.1 q b hq (lt_of_lt_of_le (idx?_lt_length items q b hq) hle) hb
        rw [h1] at h2
        exact Option.some.inj h2
      · refine countP_le_one_of_unique _ items ?_
        intro p q a b hp hq ha hb
        have h1 := hT.1 p a hp (lt_of_lt_of_le (idx?_lt_length items p a hp) hle) ha
        have h2 := hT.1 q b hq (lt_of_lt_of_le (idx?_lt_length items q b hq) hle) hb
        rw [h1] at h2
        exact Option.some.inj h2
    | some it =>
      have hIdxLt : index < items.length := idx?_lt_length items index it hidx
      obtain ⟨c, io, il⟩ := it
      cases c with
      | Keyword k =>
        simp only [optimizeGo, hidx]
        exact ih items ops fi ti (index + 1) (by omega) hlen
          (cursorOk_advance_not _ items fi index _ hidx rfl hF)
          (cursorOk_advance_not _ items ti index _ hidx rfl hT)
      | FrameIndex v =>
        cases fi with
        | none =>
          simp only [optimizeGo, hidx]
          exact ih items ops (some index) ti (index + 1) (by omega) hlen
            (cursorOk_advance_new _ items index _ hidx rfl hF)
            (cursorOk_advance_not _ items ti index _ hidx rfl hT)
        | some fIdx =>
          simp only [optimizeGo, hidx]
          have step : ∀ (W : Nat) (ops2 : List (DSLItem DSLOp)),
              ops2 = ops ∨ ops2 = revAt ops fIdx →
              OptConc (optimizeGo fuel
                  (eraseAt (setAt items fIdx (DSLType.FrameIndex W)) index)
                  (eraseAt ops2 index) (some fIdx) ti index) items ops := by
            intro W ops2 hops2
            obtain ⟨e1, e2, cP, cQ, hkw⟩ := foldStepInv itemIsFrame itemIsTime
              frame_not_kw frame_not_time items ops ops2 ti index fIdx
              ⟨DSLType.FrameIndex v, io, il⟩ (DSLType.FrameIndex W)
              (fun _ _ => rfl) (fun _ _ => rfl) rfl hlen hidx rfl hops2 hF hT
            exact OptConc_trans (ih _ _ _ _ _ (by rw [e2]; omega) e1 cP cQ) hkw
          split_ifs with h1 h2
          · exact step _ _ (Or.inl rfl)
          · exact step _ _ (Or.inl rfl)
          · exact step _ _ (Or.inr rfl)
      | Timestamp d =>
        cases ti with
        | none =>
          simp only [optimizeGo, hidx]
          exact ih items ops fi (some index) (index + 1) (by omega) hlen
            (cursorOk_advance_not _ items fi index _ hidx rfl hF)
            (cursorOk_advance_new _ items index _ hidx rfl hT)
        | some tIdx =>
          simp only [optimizeGo, hidx]
          have step : ∀ (W : Nat) (ops2 : List (DSLItem DSLOp)),
              ops2 = ops ∨ ops2 = revAt ops tIdx →
              OptConc (optimizeGo fuel
                  (eraseAt (setAt items tIdx (DSLType.Timestamp W)) index)
                  (eraseAt ops2 index) fi (some tIdx) index) items ops := by
            intro W ops2 hops2
            obtain ⟨e1, e2, cP, cQ, hkw⟩ := foldStepInv itemIsTime itemIsFrame
              time_not_kw time_not_frame items ops ops2 fi index tIdx
              ⟨DSLType.Timestamp d, io, il⟩ (DSLType.Timestamp W)
              (fun _ _ => rfl) (fun _ _ => rfl) rfl hlen hidx rfl hops2 hT hF
            exact OptConc_trans (ih _ _ _ _ _ (by rw [e2]; omega) e1 cQ cP) hkw
          split_ifs with h1 h2
          · exact step _ _ (Or.inl rfl)
          · exact step _ _ (Or.inl rfl)
          · exact step _ _ (Or.inr rfl)

theorem optimizeGo_noFold : ∀ (fuel : Nat) (items : List (DSLItem DSLType))
    (ops : List (DSLItem DSLOp)) (fi ti : Option Nat) (index : Nat),
    items.length - index < fuel →
    countP itemIsFrame (items.drop index) + oneIfSome fi ≤ 1 →
    countP itemIsTime (items.drop index) + oneIfSome ti ≤ 1 →
    optimizeGo fuel items ops fi ti index = ⟨items, ops⟩ := by
  intro fuel
  induction fuel with
  | zero => intro items ops fi ti index hm; omega
  | succ fuel ih =>
    intro items ops fi ti index hm hcf hct
    cases hidx : idx? items index with
    | none => simp only [optimizeGo, hidx]
    | some it =>
      have hIdxLt : index < items.length := idx?_lt_length items index it hidx
      have hdrop := drop_idx? items index it hidx
      obtain ⟨c, io, il⟩ := it
      cases c with
      | Keyword k =>
        simp only [optimizeGo, hidx]
        rw [hdrop, countP_cons_neg _ _ _ rfl] at hcf
        rw [hdrop, countP_cons_neg _ _ _ rfl] at hct
        exact ih items ops fi ti (index + 1) (by omega) hcf hct
      | FrameIndex v =>
        rw [hdrop, countP_cons_pos _ _ _ rfl] at hcf
        rw [hdrop, countP_cons_neg _ _ _ rfl] at hct
        cases fi with
        | none =>
          simp only [optimizeGo, hidx]
          refine ih items ops (some index) ti (index + 1) (by omega) ?_ hct
          simp only [oneIfSome] at hcf ⊢
          omega
        | some fIdx =>
          exfalso
          simp only [oneIfSome] at hcf
          omega
      | Timestamp d =>
        rw [hdrop, countP_cons_neg _ _ _ rfl] at hcf
        rw [hdrop, countP_cons_pos _ _ _ rfl] at hct
        cases ti with
        | none =>
          simp only [optimizeGo, hidx]
          refine ih items ops fi (some index) (index + 1) (by omega) hcf ?_
          simp only [oneIfSome] at hct ⊢
          omega
        | some tIdx =>
          exfalso
          simp only [oneIfSome] at hct
          omega

/-! ## The optimizer wrapper -/

theorem optimize_expr_spec (e : Expr) (h : e.items.length = e.ops.length + 1) :
    OptConc (optimize_expr e) e.items (syntheticAdd :: e.ops) := by
  unfold optimize_expr
  by_cases hlt : e.items.length < 2
  · rw [if_pos hlt]
    refine ⟨by simpa using h.symm, ?_, ?_, rfl⟩
    · show countP itemIsFrame e.items ≤ 1
      have := countP_le_length itemIsFrame e.items
      omega
    · show countP itemIsTime e.items ≤ 1
      have := countP_le_length itemIsTime e.items
      omega
  · rw [if_neg hlt]
    exact optimizeGo_spec (e.items.length + 1) e.items (syntheticAdd :: e.ops)
      none none 0 (by omega) (by simpa using h.symm)
      (cursorOk_zero _ _) (cursorOk_zero _ _)

theorem optimize_expr_noFold (e : Expr)
    (h1 : countP itemIsFrame e.items ≤ 1) (h2 : countP itemIsTime e.items ≤ 1) :
    optimize_expr e = ⟨e.items, syntheticAdd :: e.ops⟩ := by
  unfold optimize_expr
  by_cases hlt : e.items.length < 2
  · rw [if_pos hlt]
  · rw [if_neg hlt]
    refine optimizeGo_noFold (e.items.length + 1) e.items (syntheticAdd :: e.ops)
      none none 0 (by omega) ?_ ?_
    · simpa using h1
    · simpa using h2

/-! ## Validator support -/

theorem zip_any_snd {α β : Type} (P : β → Bool) :
    ∀ (a : List α) (b : List β), a.length = b.length →
      ((a.zip b).any fun p => P p.2) = b.any P
  | [], [], _ => rfl
  | [], _ :: _, h => by simp at h
  | _ :: _, [], h => by simp at h
  | x :: xs, y :: ys, h => by
      have ih := zip_any_snd P xs ys (by simpa using h)
      simp [List.zip_cons_cons, List.any_cons, ih]

theorem hasAddZ_eq (e : Expr) (hlen : e.ops.length = e.items.length) :
    hasAddZ e = e.ops.any fun op => op.content = DSLOp.Add := by
  unfold hasAddZ
  exact zip_any_snd (fun op => decide (op.content = DSLOp.Add)) e.items e.ops hlen.symm

/-! # Claims -/

/-- C1 (code bug): the claim — backed by the repo's own tests
(lexer.rs:803, lexer.rs:878) — says `parse_item("1.4")` succeeds with
`Timestamp(1.4 s)`; the code instead rejects it: `parse_timestamp2`
requires `times.len() ≥ 2` even when a fractional part was parsed, so
`"1.4"` is a fatal `Fail` there and `parse_item` then fails with a
`Nom`-kind error (inner `Tag`) after the remaining atom forms also
fail. -/
theorem C1_lone_fraction_rejected_by_code :
    parse_timestamp2 (strInp "1.4") = .error (.failure ⟨3, .Fail⟩) ∧
    parse_item (strInp "1.4") = .error (.err ⟨0, 1, ⟨1, .Tag⟩, .Nom⟩) :=
  ⟨rfl, rfl⟩

/-- C2 (counterexample): the optimizer is not idempotent. The expression
`1f` (one item, no operator) satisfies the parser's shape invariant, yet
the second `optimize_expr` run prepends a second synthetic `Add`, so the
ops sequences of `optimize(optimize(e))` and `optimize(e)` differ. -/
theorem C2_optimize_not_idempotent_counterexample :
    wE2.ops.length = wE2.items.length - 1 ∧
    (optimize_expr (optimize_expr wE2)).ops ≠ (optimize_expr wE2).ops := by
  refine ⟨rfl, ?_⟩
  decide

/-- C2 (amended): for every expression with `|items| = |ops| + 1`, a
second run of `optimize_expr` leaves the items unchanged and merely
prepends one more synthetic leading `Add` to the ops; idempotence holds
for the items sequence only. -/
theorem C2_second_optimize_only_prepends (e : Expr)
    (h : e.items.length = e.ops.length + 1) :
    (optimize_expr (optimize_expr e)).items = (optimize_expr e).items ∧
    (optimize_expr (optimize_expr e)).ops = syntheticAdd :: (optimize_expr e).ops := by
  obtain ⟨-, h1, h2, -⟩ := optimize_expr_spec e h
  rw [optimize_expr_noFold (optimize_expr e) h1 h2]
  exact ⟨rfl, rfl⟩

/-- C2 (witness): the amended statement at the concrete expression `2s`. -/
theorem C2_second_optimize_only_prepends_witness :
    wE2b.items.length = wE2b.ops.length + 1 ∧
    ((optimize_expr (optimize_expr wE2b)).items = (optimize_expr wE2b).items ∧
      (optimize_expr (optimize_expr wE2b)).ops =
        syntheticAdd :: (optimize_expr wE2b).ops) :=
  ⟨rfl, C2_second_optimize_only_prepends wE2b rfl⟩

/-- C3: canonical-form invariant. For every expression satisfying the
parser's post-condition `|ops| = |items| − 1` (over the integers, i.e.
`|items| = |ops| + 1`), after `optimize_expr` the operator count equals
the item count, the items contain at most one `FrameIndex` atom and at
most one `Timestamp` atom, and the keyword atoms (spans included) are
unchanged, in their original relative order, with their original signs
(their operators in the sign-canonicalised original). -/
theorem C3_canonical_form_invariant (e : Expr)
    (h : e.items.length = e.ops.length + 1) :
    (optimize_expr e).ops.length = (optimize_expr e).items.length ∧
    countP itemIsFrame (optimize_expr e).items ≤ 1 ∧
    countP itemIsTime (optimize_expr e).items ≤ 1 ∧
    kwSigns (optimize_expr e).items (optimize_expr e).ops =
      kwSigns e.items (syntheticAdd :: e.ops) :=
  optimize_expr_spec e h

/-- C3 (witness): the invariant at the parse of `1f + 2f - end`. -/
theorem C3_canonical_form_invariant_witness :
    wE3.items.length = wE3.ops.length + 1 ∧
    ((optimize_expr wE3).ops.length = (optimize_expr wE3).items.length ∧
      countP itemIsFrame (optimize_expr wE3).items ≤ 1 ∧
      countP itemIsTime (optimize_expr wE3).items ≤ 1 ∧
      kwSigns (optimize_expr wE3).items (optimize_expr wE3).ops =
        kwSigns wE3.items (syntheticAdd :: wE3.ops)) :=
  ⟨rfl, C3_canonical_form_invariant wE3 rfl⟩

/-- C4 (code bug): the from-expression `"from"` parses, passes
`check_expr` (net keyword count 1 under the synthetic `Add`) and passes
the cross-reference guard paired with the default to-expression `"end"`,
yet evaluating the from bound hits the `unreachable!()` arm of
`get_from_timestamp`'s keyword match (modelled as `none`), for every
call-stack budget and every atom-conversion semantics — evaluation of
validated expressions is not panic-free. -/
theorem C4_self_reference_hits_unreachable :
    parse_expr (strInp "from") = .ok (⟨[], 4⟩, fromOnlyExpr) ∧
    check_expr (optimize_expr fromOnlyExpr) = .ok fromOnlyChecked ∧
    crossCheck fromOnlyChecked endOnlyChecked = .ok (fromOnlyChecked, endOnlyChecked) ∧
    ∀ (fuel : Nat) (fts mts : Nat → Int) (ets : Int),
      evalCtx fromOnlyChecked endOnlyChecked fts mts ets fuel Role.fromBound = none := by
  refine ⟨rfl, rfl, rfl, ?_⟩
  intro fuel fts mts ets
  cases fuel <;> rfl

/-- C5 (counterexample): a colon-timestamp with a four-digit fractional
suffix is accepted, not rejected with `Count`: `parse_item("1:2.1234")`
produces a `Timestamp` atom (62 s + 1234 ms). -/
theorem C5_long_fraction_not_count_error :
    parse_item (strInp "1:2.1234") =
      .ok (⟨[], 8⟩, some ⟨.Timestamp 63234000000, 0, 8⟩) :=
  rfl

/-- C5 (amended): a fractional suffix of four or more digits is accepted
and its digit string is read as a literal millisecond count (shorter
suffixes are right-padded with zeros to three digits): `"1:2.1234"`
gives 62 s + 1234 ms and `"1:2.05"` gives 62 s + 50 ms. Only a fourth
colon-separated field raises `Count`. -/
theorem C5_long_fraction_parses_as_millis :
    parse_timestamp2 (strInp "1:2.1234") = .ok (⟨[], 8⟩, .Timestamp 63234000000) ∧
    parse_timestamp2 (strInp "1:2.05") = .ok (⟨[], 6⟩, .Timestamp 62050000000) ∧
    parse_timestamp2 (strInp "1:2:3:4") = .error (.failure ⟨7, .Count⟩) :=
  ⟨rfl, rfl, rfl⟩

/-- C6 (counterexample): `parse_expr("++")` does not fail with `Escaped`
at offset 1: the first `+` already fails atom parsing, producing a
`Keywords`-kind error anchored at offset 0 (inner kind `Tag`). -/
theorem C6_plus_plus_fails_with_keywords :
    parse_expr (strInp "++") = .error (.err ⟨0, 0, ⟨0, .Tag⟩, .Keywords⟩) :=
  rfl

/-- C6 (amended): an operator followed by nothing (end of input) is the
fatal error whose inner nom kind is `Escaped`, anchored at the
operator's offset inside the wrapping `ParseError`: `parse_expr("end+")`
fails with inner `Escaped` and offset 3 (the `+`). `"++"` instead fails
at the first atom with a `Keywords` error at offset 0. -/
theorem C6_trailing_op_escaped_at_op_offset :
    parse_expr (strInp "end+") = .error (.failure ⟨3, 1, ⟨4, .Escaped⟩, .Nom⟩) :=
  rfl

/-- C7: the cross-reference guard. Whenever the validated from-expression
contains the keyword `To` and the validated to-expression contains the
keyword `From`, the orchestrator's guard rejects the pair with the
circular-reference error instead of building the result handle. -/
theorem C7_cross_reference_rejected (fe te : CheckedExpr)
    (hf : DSLType.Keyword DSLKeywords.To ∈ fe.items)
    (ht : DSLType.Keyword DSLKeywords.From ∈ te.items) :
    crossCheck fe te =
      .error "circular references, arg from ref `to` and arg to ref `from`" := by
  have h1 : ref_to fe = true := List.any_eq_true.mpr ⟨_, hf, rfl⟩
  have h2 : ref_from te = true := List.any_eq_true.mpr ⟨_, ht, rfl⟩
  simp [crossCheck, h1, h2]

/-- C7 (witness): the guard fires on the concrete pair `to` / `from - 1s`. -/
theorem C7_cross_reference_rejected_witness :
    (DSLType.Keyword DSLKeywords.To ∈ wFe7.items ∧
      DSLType.Keyword DSLKeywords.From ∈ wTe7.items) ∧
    crossCheck wFe7 wTe7 =
      .error "circular references, arg from ref `to` and arg to ref `from`" :=
  ⟨⟨by decide, by decide⟩, C7_cross_reference_rejected wFe7 wTe7 (by decide) (by decide)⟩

/-- C8: validator rule V1. For every non-empty expression in canonical
form (one operator per atom), `check_expr` returns the error
`"Overflow: all is sub"` exactly when none of its operators is `Add`. -/
theorem C8_overflow_iff_all_sub (e : Expr) (hlen : e.ops.length = e.items.length)
    (hne : e.items ≠ []) :
    check_expr e = .error "Overflow: all is sub" ↔
      ∀ op ∈ e.ops, op.content = DSLOp.Sub := by
  have hops : e.ops ≠ [] := by
    intro hh
    rw [hh] at hlen
    exact hne (List.length_eq_zero.mp hlen.symm)
  have hEm : e.ops.isEmpty = false := by
    cases hoe : e.ops with
    | nil => exact absurd hoe hops
    | cons _ _ => rfl
  have hA := hasAddZ_eq e hlen
  by_cases hAdd : hasAddZ e = true
  · have hnotall : ¬ ∀ op ∈ e.ops, op.content = DSLOp.Sub := by
      rw [hA] at hAdd
      obtain ⟨op, hmem, hop⟩ := List.any_eq_true.mp hAdd
      intro hall
      have hsub := hall op hmem
      rw [hsub] at hop
      exact absurd (of_decide_eq_true hop) (by decide)
    refine iff_of_false ?_ hnotall
    intro hchk
    unfold check_expr at hchk
    split_ifs at hchk with h1 h2 h3
    · rw [hAdd] at h1
      simp at h1
    · exact absurd (Except.error.inj hchk) (by decide)
    · exact absurd (Except.error.inj hchk) (by decide)
  · have hAdd' : hasAddZ e = false := by
      cases hq : hasAddZ e
      · rfl
      · exact absurd hq hAdd
    have hall : ∀ op ∈ e.ops, op.content = DSLOp.Sub := by
      rw [hA] at hAdd'
      intro op hmem
      have hnot := List.any_eq_false.mp hAdd' op hmem
      cases hoc : op.content with
      | Add =>
        exfalso
        apply hnot
        rw [hoc]
        decide
      | Sub => rfl
    refine iff_of_true ?_ hall
    simp [check_expr, hAdd', hEm]

/-- C8 (witness): the canonical form of `-1s` is rejected as all-sub. -/
theorem C8_overflow_iff_all_sub_witness :
    (wE8.ops.length = wE8.items.length ∧ wE8.items ≠ []) ∧
    check_expr wE8 = .error "Overflow: all is sub" :=
  ⟨⟨rfl, by decide⟩, (C8_overflow_iff_all_sub wE8 rfl (by decide)).mpr (by decide)⟩

/-- C10 (code bug): the documented CLI default for `--from` is `"0"`, but
`parse_expr("0")` fails — a lone integer matches no atom form (the
repo's own test lexer.rs:897 asserts `parse_item("100")` errors), so the
default start bound is not a valid time expression. -/
theorem C10_default_from_is_rejected :
    parse_expr (strInp "0") = .error (.err ⟨0, 1, ⟨1, .Tag⟩, .Nom⟩) :=
  rfl

end PickFrame
